import Mathlib

/-!
Verification of the display-name cache and fuzzy-match/ranking search engine of
the obsidian-link-title-from-property plugin.

Modelling conventions, shared by all definitions below:

* JavaScript strings are modelled as Lean `String` / `List Char`; the JS
  `length` (UTF-16 units) is modelled as the number of characters, and
  `toLowerCase()` is modelled as per-character `Char.toLower`.
* JS numbers appearing in scores are modelled as `Int` in tenths of a point:
  the source tier values 1000 / 900 / 100 / 80 / 50 / 30 / 20 / 15 become
  10000 / 9000 / 1000 / 800 / 500 / 300 / 200 / 150, and the length penalty
  `(display.length - query.length) * 0.1` becomes `display.length - query.length`
  tenths.  All comparisons the code performs are decided identically in this
  scaling, because every decision threshold is a multiple of one tenth.
* `Array.prototype.sort` with a consistent comparator is modelled as a stable
  sort (`List.insertionSort`) by the comparator ordering; `localeCompare` is
  modelled as code-point lexicographic comparison.
* Fallible JS code (a thrown exception) is modelled as `Except Unit`.
-/

/-- JS `\w` word character class (ASCII letters, digits, underscore). -/
def jsWordChar (c : Char) : Bool := c.isAlphanum || c == '_'

/-- Model of `s.toLowerCase()` as a character list. -/
def lowerChars (s : String) : List Char := s.data.map Char.toLower

/-- Model of `s.toLowerCase()` as a string. -/
def lowerString (s : String) : String := String.mk (lowerChars s)

/-- Model of JS `String.prototype.trim` on a character list. -/
def jsTrim (s : List Char) : List Char :=
  ((s.dropWhile Char.isWhitespace).reverse.dropWhile Char.isWhitespace).reverse

/-- Model of JS `String.prototype.trim`. -/
def trimString (s : String) : String := String.mk (jsTrim s.data)

/-- Code-point lexicographic "less or equal" on character lists; the model of
`a.localeCompare(b) <= 0` used by the sort comparators. -/
def lexLe : List Char → List Char → Bool
  | [], _ => true
  | _ :: _, [] => false
  | a :: s, b :: t => if a = b then lexLe s t else decide (a < b)

/-- Model of `s.startsWith(p)`. -/
def startsWithChars (s p : List Char) : Bool := p.isPrefixOf s

/-- Model of `s.includes(p)`: `p` occurs contiguously somewhere in `s`. -/
def containsChars (s p : List Char) : Bool :=
  p.isPrefixOf s ||
    match s with
    | [] => false
    | _ :: t => containsChars t p

/-- Scan for an occurrence of `q` in the remaining suffix that starts at a
word boundary; `prevW` says whether the character just before the current
position is a word character.  This is the positional content of the regex
`\b` assertion: a boundary lies at a position where exactly one of the two
surrounding characters is a word character (string edges count as non-word). -/
def wbScan (q : List Char) : Bool → List Char → Bool
  | prevW, [] => (prevW != false) && q.isPrefixOf []
  | prevW, c :: t =>
    ((prevW != jsWordChar c) && q.isPrefixOf (c :: t)) || wbScan q (jsWordChar c) t

/-- Whether the regex `\b` followed by the literal pattern `q` matches somewhere
in `s`. -/
def wbTest (s q : List Char) : Bool := wbScan q false s

/-- Regex metacharacters of ECMAScript patterns. -/
def regexMetaChars : List Char :=
  ['\\', '^', '$', '.', '|', '?', '*', '+', '(', ')', '[', ']']

/-- Modelled from the ECMAScript platform: the constructor
`new RegExp("\\b" + pattern, "i")` used by `getMatchScore` in the source.
A pattern whose characters are all literal (no metacharacter) compiles to a
word-boundary-prefixed literal search, exactly as in ECMAScript; a pattern with
an unbalanced group such as `"("` fails to compile (a `SyntaxError`), which the
model renders as `none`.  Patterns containing other metacharacters are
conservatively mapped to `none` as well; no theorem below depends on that
region of the model.  The `i` flag is irrelevant here because both the pattern
and every tested subject are already lower-cased by the caller. -/
def compileWordBoundaryPattern (q : List Char) : Option (List Char → Bool) :=
  if q.all (fun c => !(regexMetaChars.contains c)) then
    some (fun s => wbTest s q)
  else none

/-- Source: `fuzzyMatch(str, query)` (src/unnamed/part_006 lines 189-198, the
same code as the `fuzzyMatch` imported from `utils/search` by
`src/src/ui/LinkTitleSuggest.ts` and `src/src/ui/QuickSwitchModal.ts`).
The JS loop keeps a cursor `i` into the lower-cased candidate and advances it
past the first occurrence of each query character (`indexOf(char, i) + 1`),
failing when `indexOf` returns `-1`; structurally that is the following
recursion on the candidate suffix. -/
def fuzzyGo : List Char → List Char → Bool
  | _, [] => true
  | [], _ :: _ => false
  | a :: s, c :: q => if a = c then fuzzyGo s q else fuzzyGo s (c :: q)

/-- Source: `fuzzyMatch(str, query)`; both strings are lower-cased first. -/
def fuzzyMatch (str query : String) : Bool :=
  fuzzyGo (lowerChars str) (lowerChars query)

theorem fuzzyGo_iff_sublist (s q : List Char) :
    fuzzyGo s q = true ↔ q.Sublist s := by
  induction s generalizing q with
  | nil =>
    cases q with
    | nil => simp [fuzzyGo]
    | cons c q => simp [fuzzyGo]
  | cons a s ih =>
    cases q with
    | nil => simp [fuzzyGo, List.nil_sublist]
    | cons c q =>
      by_cases h : a = c
      · subst h
        simp only [fuzzyGo, if_pos rfl]
        rw [List.cons_sublist_cons]
        exact ih q
      · simp only [fuzzyGo, if_neg h]
        rw [ih (c :: q)]
        constructor
        · exact fun hs => hs.cons a
        · intro hs
          cases hs with
          | cons _ hs => exact hs
          | cons₂ _ hs => exact absurd rfl h

/-- Claim C1: for every candidate string and every query string,
`fuzzyMatch(candidate, query)` returns true iff the query's characters appear
in the candidate in order, case-insensitively, not necessarily contiguously
(subsequence containment); the empty query matches every candidate,
`fuzzyMatch("My Custom Title", "mct")` is true and
`fuzzyMatch("My Custom Title", "xyz")` is false. -/
theorem C1_fuzzyMatch_subsequence :
    (∀ candidate query : String,
      fuzzyMatch candidate query = true ↔
        (lowerChars query).Sublist (lowerChars candidate))
    ∧ (∀ candidate : String, fuzzyMatch candidate "" = true)
    ∧ fuzzyMatch "My Custom Title" "mct" = true
    ∧ fuzzyMatch "My Custom Title" "xyz" = false := by
  refine ⟨fun c q => fuzzyGo_iff_sublist _ _, fun c => ?_, by decide, by decide⟩
  exact (fuzzyGo_iff_sublist _ _).mpr (by simp [lowerChars, List.nil_sublist])

/-- A YAML front-matter scalar as the metadata accessor delivers it: null, a
string, a number (modelled as an integer), or a boolean. -/
inductive FmScalar where
  | null
  | str (s : String)
  | num (n : Int)
  | bool (b : Bool)
deriving DecidableEq, Repr

/-- A front-matter value: a scalar or a list of scalars. -/
inductive FmValue where
  | scalar (v : FmScalar)
  | list (xs : List FmScalar)
deriving DecidableEq, Repr

/-- Model of JS `String(value)` on a front-matter scalar. -/
def fmScalarToString : FmScalar → String
  | .null => "null"
  | .str s => s
  | .num n => toString n
  | .bool b => if b then "true" else "false"

/-- Model of JS `String(value)` on a front-matter value; an array stringifies
as its elements joined with commas. -/
def fmToString : FmValue → String
  | .scalar v => fmScalarToString v
  | .list xs => String.intercalate "," (xs.map fmScalarToString)

/-- Model of JS truthiness of a front-matter value, as used by the
`if (frontmatter?.aliases)` guard: null, the empty string, 0 and false are
falsy; every array (even empty) is truthy. -/
def fmTruthy : FmValue → Bool
  | .scalar .null => false
  | .scalar (.str s) => !(s == "")
  | .scalar (.num n) => !(n == 0)
  | .scalar (.bool b) => b
  | .list _ => true

/-- A front-matter map, keyed by property name. -/
def Frontmatter : Type := List (String × FmValue)

/-- Model of JS property access `frontmatter[key]` (`none` models
`undefined`). -/
def fmGet (fm : Frontmatter) (k : String) : Option FmValue :=
  match fm with
  | [] => none
  | (k1, v) :: t => if k1 == k then some v else fmGet t k

/-- A file handle as the external file store exposes it: stable path, basename
(filename without directory or extension), and modification timestamp. -/
structure FileInfo where
  path : String
  basename : String
  mtime : Int
deriving DecidableEq, Repr

/-- Source: the `CachedFileData` record stored in `fileCache`
(src/src/ui/LinkTitleSuggest.ts lines 91-97). -/
structure CachedFileData where
  file : FileInfo
  displayName : String
  aliases : List String
  lastModified : Int
  isCustomDisplay : Bool
deriving DecidableEq, Repr

/-- The plugin settings the search code reads. -/
structure PluginSettings where
  propertyKey : String
  includeFilenameInSearch : Bool
  includeAliasesInSearch : Bool
  enableForQuickSwitcher : Bool
deriving DecidableEq, Repr

/-- Model of JS `Map.prototype.get` on an insertion-ordered association
list. -/
def mapGet {α : Type} : List (String × α) → String → Option α
  | [], _ => none
  | (k1, v) :: t, k => if k1 == k then some v else mapGet t k

/-- Model of JS `Map.prototype.set`: replace in place when the key exists
(keeping its position), otherwise append. -/
def mapSet {α : Type} : List (String × α) → String → α → List (String × α)
  | [], k, v => [(k, v)]
  | (k1, v1) :: t, k, v =>
    if k1 == k then (k, v) :: t else (k1, v1) :: mapSet t k v

/-- Source: the alias-normalization block of `updateFileCache`
(src/src/ui/LinkTitleSuggest.ts lines 86-89): guarded by the truthiness of
`frontmatter?.aliases`, a non-array value is wrapped into a one-element array,
every element is stringified and trimmed, and empties are dropped. -/
def normalizeAliases (fm : Option Frontmatter) : List String :=
  match fm.bind (fun m => fmGet m "aliases") with
  | some v =>
    if fmTruthy v then
      ((match v with
        | .list xs => xs
        | .scalar s => [s]).map
          (fun a => trimString (fmScalarToString a))).filter (fun a => !(a == ""))
    else []
  | none => []

/-- Source: the display-name derivation and record construction of
`updateFileCache` (src/src/ui/LinkTitleSuggest.ts lines 71-98): when the
front-matter has the configured key with a value that is neither undefined nor
null and whose trimmed string form is non-empty, that trimmed string becomes
the display name and the record is marked custom; otherwise the basename is
used. -/
def updateFileCacheRecord (propertyKey : String) (fm : Option Frontmatter)
    (f : FileInfo) : CachedFileData :=
  let propVal := fm.bind (fun m => fmGet m propertyKey)
  let dn :=
    match propVal with
    | some v =>
      if v ≠ FmValue.scalar FmScalar.null then
        let pv := trimString (fmToString v)
        if pv ≠ "" then (pv, true) else (f.basename, false)
      else (f.basename, false)
    | none => (f.basename, false)
  ⟨f, dn.1, normalizeAliases fm, f.mtime, dn.2⟩

/-- Source: `updateFileCache(file)` (src/src/ui/LinkTitleSuggest.ts lines
71-98): computes the record for `file` from its current front-matter and
stores it in the cache under `file.path`. -/
def updateFileCache (propertyKey : String)
    (cache : List (String × CachedFileData)) (f : FileInfo)
    (fm : Option Frontmatter) : List (String × CachedFileData) :=
  mapSet cache f.path (updateFileCacheRecord propertyKey fm f)

theorem mapGet_mapSet {α : Type} (cache : List (String × α)) (k : String)
    (v : α) : mapGet (mapSet cache k v) k = some v := by
  induction cache with
  | nil => simp [mapSet, mapGet]
  | cons h t ih =>
    obtain ⟨k1, v1⟩ := h
    by_cases hk : k1 == k
    · simp [mapSet, hk, mapGet]
    · simp [mapSet, hk, mapGet, ih]

/-- Claim C4: the record `updateFileCache` stores for a file satisfies the
derivation rule: a present, non-null property value with non-empty trimmed
string form yields that trimmed string with `isCustomDisplay = true`; in every
other case (key absent, null, empty after trimming, or front-matter missing)
the basename is used with `isCustomDisplay = false`. -/
theorem C4_display_name_derivation (propertyKey : String)
    (fm : Option Frontmatter) (f : FileInfo)
    (cache : List (String × CachedFileData)) :
    (mapGet (updateFileCache propertyKey cache f fm) f.path =
      some (updateFileCacheRecord propertyKey fm f))
    ∧ (∀ v, fm.bind (fun m => fmGet m propertyKey) = some v →
        v ≠ FmValue.scalar FmScalar.null →
        trimString (fmToString v) ≠ "" →
        (updateFileCacheRecord propertyKey fm f).displayName =
          trimString (fmToString v)
        ∧ (updateFileCacheRecord propertyKey fm f).isCustomDisplay = true)
    ∧ ((∀ v, fm.bind (fun m => fmGet m propertyKey) = some v →
          v = FmValue.scalar FmScalar.null ∨ trimString (fmToString v) = "") →
        (updateFileCacheRecord propertyKey fm f).displayName = f.basename
        ∧ (updateFileCacheRecord propertyKey fm f).isCustomDisplay = false) := by
  refine ⟨mapGet_mapSet _ _ _, ?_, ?_⟩
  · intro v hv hnull htrim
    simp only [updateFileCacheRecord, hv, if_pos hnull]
    rw [if_pos htrim]
    exact ⟨by trivial, by trivial⟩
  · intro h
    cases hv : fm.bind (fun m => fmGet m propertyKey) with
    | none => simp only [updateFileCacheRecord, hv]; exact ⟨by trivial, by trivial⟩
    | some v =>
      rcases h v hv with hnull | htrim
      · simp only [updateFileCacheRecord, hv, hnull, ne_eq, not_true_eq_false,
          if_false]
        exact ⟨by trivial, by trivial⟩
      · by_cases hnull : v = FmValue.scalar FmScalar.null
        · simp only [updateFileCacheRecord, hv, hnull, ne_eq,
            not_true_eq_false, if_false]
          exact ⟨by trivial, by trivial⟩
        · simp only [updateFileCacheRecord, hv, if_pos hnull, htrim, ne_eq,
            not_true_eq_false, if_false]
          exact ⟨by trivial, by trivial⟩

/-- Witness for C4: a file `note.md` with front-matter `title: "  Foo  "`
gets display name `"Foo"` and the custom flag; the same file with no
front-matter falls back to its basename. -/
theorem C4_display_name_derivation_witness :
    ((updateFileCacheRecord "title"
        (some [("title", FmValue.scalar (FmScalar.str "  Foo  "))])
        ⟨"note.md", "note", 0⟩).displayName =
      trimString (fmToString (FmValue.scalar (FmScalar.str "  Foo  ")))
      ∧ (updateFileCacheRecord "title"
          (some [("title", FmValue.scalar (FmScalar.str "  Foo  "))])
          ⟨"note.md", "note", 0⟩).isCustomDisplay = true)
    ∧ ((updateFileCacheRecord "title" none ⟨"note.md", "note", 0⟩).displayName =
        "note"
      ∧ (updateFileCacheRecord "title" none
          ⟨"note.md", "note", 0⟩).isCustomDisplay = false) :=
  ⟨(C4_display_name_derivation "title"
      (some [("title", FmValue.scalar (FmScalar.str "  Foo  "))])
      ⟨"note.md", "note", 0⟩ []).2.1
      (FmValue.scalar (FmScalar.str "  Foo  ")) rfl (by decide) (by decide),
   (C4_display_name_derivation "title" none ⟨"note.md", "note", 0⟩ []).2.2
      (fun v hv => by simp at hv)⟩

/-- Stated from the claim C5 wording, for comparison with the source
definition `normalizeAliases`: a scalar becomes a one-element list, a list
stays a list, every element is stringified and trimmed, and empty strings are
dropped; an absent field gives the empty list. -/
def specNormalizeAliases : Option FmValue → List String
  | none => []
  | some (.scalar s) =>
    ([s].map (fun a => trimString (fmScalarToString a))).filter
      (fun a => !(a == ""))
  | some (.list xs) =>
    (xs.map (fun a => trimString (fmScalarToString a))).filter
      (fun a => !(a == ""))

/-- Counterexample to claim C5: for front-matter `aliases: null` the code's
truthiness guard produces the empty alias list, while the claim's
normalization rule (stringify every scalar, trim, drop empties) produces
`["null"]`.  The claim also fails on other falsy scalars such as `0` and
`false` for the same reason. -/
theorem C5_alias_normalization_counterexample :
    (updateFileCacheRecord "title"
        (some [("aliases", FmValue.scalar FmScalar.null)])
        ⟨"note.md", "note", 0⟩).aliases = []
    ∧ specNormalizeAliases (some (FmValue.scalar FmScalar.null)) = ["null"]
    ∧ ([] : List String) ≠ ["null"] := by
  refine ⟨?_, by decide, by decide⟩
  simp [updateFileCacheRecord, normalizeAliases, fmGet, fmTruthy]

/-- Claim C5 (amended): the cached alias list agrees with the claim's
normalization whenever the front-matter `aliases` value is truthy in the JS
sense; a falsy `aliases` value (null, the empty string, 0, or false) yields
the empty list, as does an absent field. -/
theorem C5_alias_normalization_amended (propertyKey : String)
    (fm : Option Frontmatter) (f : FileInfo) :
    (updateFileCacheRecord propertyKey fm f).aliases =
      match fm.bind (fun m => fmGet m "aliases") with
      | none => []
      | some v => if fmTruthy v then specNormalizeAliases (some v) else [] := by
  show normalizeAliases fm = _
  unfold normalizeAliases
  cases hv : fm.bind (fun m => fmGet m "aliases") with
  | none => rfl
  | some v =>
    by_cases ht : fmTruthy v
    · cases v with
      | scalar s => simp [ht, specNormalizeAliases]
      | list xs => simp [ht, specNormalizeAliases]
    · simp [ht]

/-- Source: the body of `getMatchScore(display, query, basename)`
(src/unnamed/part_006 lines 210-238) after the word-boundary regex has been
constructed; `test` is the compiled regex, `includeFilename` is the
`includeFilenameInSearch` setting the method reads.  The tier chain is the
source's else-if cascade; note that the 9000 (source: 900) exact-basename tier
is not guarded by `includeFilename`.  Scores are in tenths. -/
def rawScore006 (includeFilename : Bool) (test : List Char → Bool)
    (display query basename : String) : Int :=
  let ld := lowerChars display
  let lb := lowerChars basename
  let lq := lowerChars query
  let base : Int :=
    if ld = lq then 10000
    else if lb = lq then 9000
    else if startsWithChars ld lq then 1000
    else if includeFilename && startsWithChars lb lq then 800
    else if containsChars ld lq then 500
    else if includeFilename && containsChars lb lq then 300
    else 0
  let s1 := base + (if test ld then 200 else 0)
  let s2 := s1 + (if includeFilename && test lb then 150 else 0)
  let penalty : Int :=
    max 0 ((display.data.length : Int) - (query.data.length : Int))
  max 0 (s2 - penalty)

/-- Source: `getMatchScore(display, query, basename)` (src/unnamed/part_006
lines 210-238).  The method unconditionally constructs
`new RegExp("\\b" + lowerQuery, "i")`, so a query whose pattern does not
compile makes the whole call throw, modelled as `Except.error ()`. -/
def getMatchScore006 (includeFilename : Bool)
    (display query basename : String) : Except Unit Int :=
  match compileWordBoundaryPattern (lowerChars query) with
  | none => Except.error ()
  | some test => Except.ok (rawScore006 includeFilename test display query basename)

theorem startsWithChars_self (l : List Char) : startsWithChars l l = true := by
  simp [startsWithChars, List.isPrefixOf_iff_prefix]

theorem rawScore006_ge_of_exact (flag : Bool) (test : List Char → Bool)
    (d q b : String) (h : lowerChars d = lowerChars q) :
    10000 ≤ rawScore006 flag test d q b := by
  have hlen : (d.data.length : Int) = (q.data.length : Int) := by
    have := congrArg List.length h
    simpa [lowerChars] using this
  simp only [rawScore006, if_pos h, hlen]
  split_ifs <;> omega

theorem rawScore006_le_of_ne (flag : Bool) (test : List Char → Bool)
    (d q b : String) (h : lowerChars d ≠ lowerChars q) :
    rawScore006 flag test d q b ≤ 9350 := by
  have hp : (0 : Int) ≤ max 0 ((d.data.length : Int) - (q.data.length : Int)) :=
    le_max_left 0 _
  simp only [rawScore006, if_neg h]
  split_ifs <;> omega

theorem rawScore006_prefix_ge (flag : Bool) (test : List Char → Bool)
    (d q b : String)
    (h1 : startsWithChars (lowerChars d) (lowerChars q) = true)
    (h2 : lowerChars d ≠ lowerChars q)
    (h3 : lowerChars b ≠ lowerChars q) :
    1000 - max 0 ((d.data.length : Int) - (q.data.length : Int)) ≤
      rawScore006 flag test d q b := by
  simp only [rawScore006, if_neg h2, if_neg h3, h1, if_true]
  split_ifs <;> omega

theorem rawScore006_contains_only_le (flag : Bool) (test : List Char → Bool)
    (d q b : String)
    (h1 : lowerChars d ≠ lowerChars q)
    (h2 : lowerChars b ≠ lowerChars q)
    (h3 : startsWithChars (lowerChars d) (lowerChars q) = false)
    (h4 : startsWithChars (lowerChars b) (lowerChars q) = false) :
    rawScore006 flag test d q b ≤ 850 := by
  have hp : (0 : Int) ≤ max 0 ((d.data.length : Int) - (q.data.length : Int)) :=
    le_max_left 0 _
  simp only [rawScore006, if_neg h1, if_neg h2, h3, h4, Bool.and_false,
    Bool.false_eq_true, if_false]
  split_ifs <;> omega

/-- A display string consisting of a dash followed by 503 parenthesis
characters; a prefix match for the query `"-"` whose length penalty drags its
score below a short contains-only match. -/
def longDashParen : String := String.mk ('-' :: List.replicate 503 '(')

/-- Counterexample to claim C2: the strict tier order fails in two ways.
With `includeFilenameInSearch = true` and query `"a"`, the display `"ab"`
merely starts with the query yet scores 119.9 (here 1199 tenths), while the
display `"xa"` merely contains the query but its basename `"a"` exactly equals
it, landing in the 900-tier with 914.9; the contains-only candidate outranks
the prefix candidate.  And even with no basename involvement, a prefix
candidate 504 characters long scores 49.7 for the query `"-"` while a
3-character contains-only candidate scores 49.8, because the length penalty is
unbounded. -/
theorem C2_score_monotonicity_counterexample :
    (startsWithChars (lowerChars "ab") (lowerChars "a") = true
      ∧ lowerChars "ab" ≠ lowerChars "a"
      ∧ containsChars (lowerChars "xa") (lowerChars "a") = true
      ∧ startsWithChars (lowerChars "xa") (lowerChars "a") = false
      ∧ getMatchScore006 true "ab" "a" "zz" = Except.ok 1199
      ∧ getMatchScore006 true "xa" "a" "a" = Except.ok 9149
      ∧ (1199 : Int) < 9149)
    ∧ (startsWithChars (lowerChars longDashParen) (lowerChars "-") = true
      ∧ containsChars (lowerChars "((-") (lowerChars "-") = true
      ∧ startsWithChars (lowerChars "((-") (lowerChars "-") = false
      ∧ getMatchScore006 false longDashParen "-" "zz" = Except.ok 497
      ∧ getMatchScore006 false "((-" "-" "zz" = Except.ok 498
      ∧ (497 : Int) < 498) := by
  refine ⟨⟨by decide, by decide, by decide, by decide, rfl, rfl, by decide⟩,
    ⟨?_, by decide, by decide, ?_, rfl, by decide⟩⟩
  · exact by decide
  · set_option maxRecDepth 100000 in exact rfl

/-- Claim C2 (amended): an exact display match always strictly outranks a
display-prefix-only match; a display-prefix-only candidate strictly outranks a
display-contains-only candidate provided neither candidate's basename equals
or starts with the query (which would engage the 900/80-level filename tiers)
and the prefix candidate's display exceeds the query's length by at most 149
characters (so the 0.1-per-character length penalty cannot bridge the
24.9-point worst-case gap between the tiers). -/
theorem C2_score_monotonicity_amended :
    (∀ (flag : Bool) (q dA bA dB bB : String) (sA sB : Int),
        lowerChars dA = lowerChars q →
        startsWithChars (lowerChars dB) (lowerChars q) = true →
        lowerChars dB ≠ lowerChars q →
        getMatchScore006 flag dA q bA = Except.ok sA →
        getMatchScore006 flag dB q bB = Except.ok sB →
        sB < sA)
    ∧ (∀ (flag : Bool) (q dA bA dB bB : String) (sA sB : Int),
        startsWithChars (lowerChars dA) (lowerChars q) = true →
        lowerChars dA ≠ lowerChars q →
        lowerChars bA ≠ lowerChars q →
        containsChars (lowerChars dB) (lowerChars q) = true →
        startsWithChars (lowerChars dB) (lowerChars q) = false →
        lowerChars dB ≠ lowerChars q →
        lowerChars bB ≠ lowerChars q →
        startsWithChars (lowerChars bB) (lowerChars q) = false →
        (dA.data.length : Int) ≤ (q.data.length : Int) + 149 →
        getMatchScore006 flag dA q bA = Except.ok sA →
        getMatchScore006 flag dB q bB = Except.ok sB →
        sB < sA) := by
  constructor
  · intro flag q dA bA dB bB sA sB hA hB1 hB2 hsA hsB
    simp only [getMatchScore006] at hsA hsB
    cases hc : compileWordBoundaryPattern (lowerChars q) with
    | none => rw [hc] at hsA; exact absurd hsA (by simp)
    | some test =>
      rw [hc] at hsA hsB
      injection hsA with hsA
      injection hsB with hsB
      have h1 := rawScore006_ge_of_exact flag test dA q bA hA
      have h2 := rawScore006_le_of_ne flag test dB q bB hB2
      omega
  · intro flag q dA bA dB bB sA sB hA1 hA2 hAb hB1 hB2 hB3 hBb hBbp hlen hsA hsB
    simp only [getMatchScore006] at hsA hsB
    cases hc : compileWordBoundaryPattern (lowerChars q) with
    | none => rw [hc] at hsA; exact absurd hsA (by simp)
    | some test =>
      rw [hc] at hsA hsB
      injection hsA with hsA
      injection hsB with hsB
      have h1 := rawScore006_prefix_ge flag test dA q bA hA1 hA2 hAb
      have h2 := rawScore006_contains_only_le flag test dB q bB hB3 hBb hB2 hBbp
      have h3 : max 0 ((dA.data.length : Int) - (q.data.length : Int)) ≤ 149 := by
        omega
      omega

/-- Witness for the amended C2, at the concrete inputs of its two parts:
display `"A"` (exact for query `"a"`) outscores display `"ab"`; display
`"ab"` (prefix) outscores display `"xa"` (contains) once no basename equals or
starts with the query. -/
theorem C2_score_monotonicity_amended_witness :
    ((1199 : Int) < 10200) ∧ ((499 : Int) < 1199) :=
  ⟨C2_score_monotonicity_amended.1 true "a" "A" "zz" "ab" "zz" 10200 1199
      (by decide) (by decide) (by decide) rfl rfl,
   C2_score_monotonicity_amended.2 true "a" "ab" "zz" "xa" "zz" 1199 499
      (by decide) (by decide) (by decide) (by decide) (by decide) (by decide)
      (by decide) (by decide) (by decide) rfl rfl⟩

/-- Counterexample to claim C3: with `includeFilenameInSearch = false`, query
`"a"`, display `"b"` and basename `"a"`, the exact-filename 900-level tier
still fires: the score is 900.0 (9000 tenths), not 0 as the claim's "applies
only when the flag is set" would require.  Setting the flag to true only adds
the 15-point basename word-boundary bonus. -/
theorem C3_flag_gating_counterexample :
    getMatchScore006 false "b" "a" "a" = Except.ok 9000
    ∧ getMatchScore006 true "b" "a" "a" = Except.ok 9150
    ∧ (9000 : Int) ≠ 0 :=
  ⟨rfl, rfl, by decide⟩

/-- Claim C3 (amended): the exact-filename 900-level tier of `getMatchScore`
applies regardless of `includeFilenameInSearch`; the flag gates only the
80-level prefix, 30-level contains and 15-point word-boundary filename
contributions.  With the flag off, a non-exact display and an exactly matching
basename always produce the 9000-tenths tier plus the display word-boundary
bonus minus the length penalty. -/
theorem C3_exact_filename_tier_amended (d q b : String)
    (test : List Char → Bool)
    (hc : compileWordBoundaryPattern (lowerChars q) = some test)
    (hne : lowerChars d ≠ lowerChars q)
    (hb : lowerChars b = lowerChars q) :
    getMatchScore006 false d q b =
      Except.ok (max 0 (9000 + (if test (lowerChars d) then 200 else 0)
        - max 0 ((d.data.length : Int) - (q.data.length : Int)))) := by
  simp only [getMatchScore006, hc, rawScore006, if_neg hne, if_pos hb,
    Bool.false_and, Bool.false_eq_true, if_false, add_zero]

/-- Witness for the amended C3 at display `"b"`, query `"a"`, basename
`"a"`. -/
theorem C3_exact_filename_tier_amended_witness :
    getMatchScore006 false "b" "a" "a" =
      Except.ok (max 0 (9000 +
        (if (fun s => wbTest s (lowerChars "a")) (lowerChars "b")
          then (200 : Int) else 0)
        - max 0 (("b".data.length : Int) - ("a".data.length : Int)))) :=
  C3_exact_filename_tier_amended "b" "a" "a"
    (fun s => wbTest s (lowerChars "a")) rfl (by decide) (by decide)

/-- Modelled from the spec: the repository snapshot does not include
`src/utils/search.ts`, the module from which `src/src/ui/LinkTitleSuggest.ts`
imports `getMatchScore(candidate, query, altCandidate, includeAlt)`; section
4.2 of the design describes it as the prioritized tier cascade below, with the
exact-altCandidate tier gated by `includeAlt`, a flat word-boundary bonus and
a length penalty floored at zero.  Scores are in tenths; the bonus values
follow the sibling in-repository implementation (part_006). -/
def specGetMatchScore (candidate query altCandidate : String)
    (includeAlt : Bool) : Int :=
  let lc := lowerChars candidate
  let la := lowerChars altCandidate
  let lq := lowerChars query
  let base : Int :=
    if lc = lq then 10000
    else if includeAlt && (la == lq) then 9000
    else if startsWithChars lc lq then 1000
    else if includeAlt && startsWithChars la lq then 800
    else if containsChars lc lq then 500
    else if includeAlt && containsChars la lq then 300
    else 0
  let wb := (if wbTest lc lq then 200 else 0)
    + (if includeAlt && wbTest la lq then 150 else 0)
  let penalty : Int :=
    max 0 ((candidate.data.length : Int) - (query.data.length : Int))
  max 0 (base + wb - penalty)

/-- Source: the `SuggestionItem` shape used by `LinkTitleSuggest`
(src/src/ui/LinkTitleSuggest.ts): an optional file handle, the display text,
and the custom-display / no-match flags. -/
structure SuggestionItem where
  file : Option FileInfo
  display : String
  isCustomDisplay : Bool
  isNoMatch : Bool
deriving DecidableEq, Repr

/-- Source: the per-record match test of `performSearch`
(src/src/ui/LinkTitleSuggest.ts lines 110-127): the display name always
participates (and an empty query matches everything); the basename
participates when `includeFilenameInSearch`; the aliases participate when
`includeAliasesInSearch` and the list is non-empty. -/
def recordMatches (st : PluginSettings) (query : String)
    (cd : CachedFileData) : Bool :=
  let m1 := (query == "") || fuzzyMatch cd.displayName query
  let m2 :=
    if st.includeFilenameInSearch then m1 || fuzzyMatch cd.file.basename query
    else m1
  if st.includeAliasesInSearch && decide (0 < cd.aliases.length) then
    m2 || cd.aliases.any (fun a => fuzzyMatch a query)
  else m2

/-- The basename fed to the scorer: `a.file?.basename ?? ''`. -/
def basenameOf (s : SuggestionItem) : String :=
  match s.file with
  | some f => f.basename
  | none => ""

/-- The comparator ordering shared by every sort in the engine: descending
score first, then ascending lexicographic text.  `keyLe a b` models
`comparator(a, b) <= 0` for the JS comparator
`bScore - aScore || textA.localeCompare(textB)`. -/
def keyLe {α : Type} (score : α → Int) (text : α → List Char) (a b : α) :
    Bool :=
  if score a = score b then lexLe (text a) (text b)
  else decide (score b < score a)

/-- The score `sortSuggestions` computes for an item
(src/src/ui/LinkTitleSuggest.ts lines 143-144). -/
def modeAScore (st : PluginSettings) (query : String) (s : SuggestionItem) :
    Int :=
  specGetMatchScore s.display query (basenameOf s) st.includeFilenameInSearch

/-- Source: the comparator of `sortSuggestions`
(src/src/ui/LinkTitleSuggest.ts lines 142-146). -/
def suggestLe (st : PluginSettings) (query : String)
    (a b : SuggestionItem) : Bool :=
  keyLe (modeAScore st query) (fun s => s.display.data) a b

/-- Source: `sortSuggestions(suggestions, query)`
(src/src/ui/LinkTitleSuggest.ts lines 141-147), modelled as a stable sort by
the comparator ordering. -/
def sortSuggestions (st : PluginSettings) (query : String)
    (sugs : List SuggestionItem) : List SuggestionItem :=
  sugs.insertionSort (fun a b => suggestLe st query a b = true)

/-- Source: the literal sentinel pushed when nothing matches a non-empty query
(src/src/ui/LinkTitleSuggest.ts lines 131-135). -/
def noMatchItem : SuggestionItem := ⟨none, "No match found", false, true⟩

/-- The suggestion list collected from the cache before sentinel handling and
sorting (the loop of src/src/ui/LinkTitleSuggest.ts lines 110-127; the
`existingFiles` set the loop also builds is never read afterwards and is
omitted). -/
def collectA (st : PluginSettings) (cache : List CachedFileData)
    (query : String) : List SuggestionItem :=
  (cache.filter (recordMatches st query)).map
    (fun cd => ⟨some cd.file, cd.displayName, cd.isCustomDisplay, false⟩)

/-- Source: `performSearch(query)` of the link-autocomplete popup, Mode A
(src/src/ui/LinkTitleSuggest.ts lines 105-139). -/
def performSearchA (st : PluginSettings) (cache : List CachedFileData)
    (query : String) : List SuggestionItem :=
  let sugs := collectA st cache query
  let sugs2 := if sugs.isEmpty && !(query == "") then [noMatchItem] else sugs
  sortSuggestions st query sugs2

/-- Source: `getSuggestions(context)` (src/src/ui/LinkTitleSuggest.ts lines
100-103): trims the live query and delegates to `performSearch`. -/
def getSuggestionsA (st : PluginSettings) (cache : List CachedFileData)
    (rawQuery : String) : List SuggestionItem :=
  performSearchA st cache (trimString rawQuery)

/-- Source: `selectSuggestion` (src/src/ui/LinkTitleSuggest.ts lines 221-253),
reduced to its observable effect: the sentinel returns without any edit, a
real item produces the link text inserted into the editor (`encodeURI` on the
path is modelled as the identity). -/
def selectSuggestion (s : SuggestionItem) (useMarkdownLinks : Bool) :
    Option String :=
  if s.isNoMatch then none
  else
    s.file.map (fun f =>
      if useMarkdownLinks then "[" ++ s.display ++ "](" ++ f.path ++ ")"
      else "[[" ++ f.basename ++ "|" ++ s.display ++ "]]")

/-- Claim C7: in Mode A, a non-empty query matching zero records returns
exactly the single "No match found" sentinel; selecting the sentinel performs
no action; and the sentinel never appears when at least one record matches. -/
theorem C7_no_match_sentinel (st : PluginSettings)
    (cache : List CachedFileData) (query : String) (hq : query ≠ "") :
    ((∀ cd ∈ cache, recordMatches st query cd = false) →
      performSearchA st cache query = [noMatchItem])
    ∧ ((∃ cd ∈ cache, recordMatches st query cd = true) →
      ∀ s ∈ performSearchA st cache query, s.isNoMatch = false)
    ∧ (∀ useMd, selectSuggestion noMatchItem useMd = none) := by
  refine ⟨?_, ?_, fun useMd => rfl⟩
  · intro hnone
    have hfil : cache.filter (recordMatches st query) = [] :=
      List.filter_eq_nil.mpr (fun cd hcd => by simp [hnone cd hcd])
    have hcol : collectA st cache query = [] := by
      simp [collectA, hfil]
    have hqb : (query == "") = false := beq_eq_false_iff_ne.mpr hq
    simp [performSearchA, hcol, hqb, sortSuggestions, List.insertionSort,
      List.orderedInsert]
  · intro hsome s hs
    obtain ⟨cd, hcd, hm⟩ := hsome
    have hmem : cd ∈ cache.filter (recordMatches st query) :=
      List.mem_filter.mpr ⟨hcd, hm⟩
    have hne : collectA st cache query ≠ [] := by
      intro h
      simp only [collectA] at h
      have hfil : cache.filter (recordMatches st query) = [] :=
        List.map_eq_nil_iff.mp h
      rw [hfil] at hmem
      exact absurd hmem (by simp)
    have hie : (collectA st cache query).isEmpty = false := by
      cases h : collectA st cache query with
      | nil => exact absurd h hne
      | cons a t => rfl
    have : performSearchA st cache query =
        sortSuggestions st query (collectA st cache query) := by
      simp [performSearchA, hie]
    rw [this] at hs
    have hs2 : s ∈ collectA st cache query :=
      (List.perm_insertionSort _ _).mem_iff.mp hs
    obtain ⟨cd2, _, hcd2⟩ := List.mem_map.mp hs2
    rw [← hcd2]

/-- A settings value used by concrete witnesses: property key `"title"`, both
search-policy flags off, switcher integration on. -/
def stPlain : PluginSettings := ⟨"title", false, false, true⟩

/-- A cached record for a plain note with no custom title. -/
def recNote : CachedFileData := ⟨⟨"note.md", "note", 0⟩, "note", [], 0, false⟩

/-- Witness for C7: with one cached plain note, the query `"zzz9"` matches
nothing and Mode A returns exactly the sentinel, which selection ignores. -/
theorem C7_no_match_sentinel_witness :
    performSearchA stPlain [recNote] "zzz9" = [noMatchItem]
    ∧ selectSuggestion noMatchItem false = none :=
  ⟨(C7_no_match_sentinel stPlain [recNote] "zzz9" (by decide)).1 (by decide),
   (C7_no_match_sentinel stPlain [recNote] "zzz9" (by decide)).2.2 false⟩

theorem lexLe_total (s t : List Char) : lexLe s t = true ∨ lexLe t s = true := by
  induction s generalizing t with
  | nil => exact Or.inl rfl
  | cons a s ih =>
    cases t with
    | nil => exact Or.inr rfl
    | cons b t =>
      by_cases h : a = b
      · subst h
        simpa [lexLe] using ih t
      · rcases lt_trichotomy a b with hlt | heq | hgt
        · exact Or.inl (by simp [lexLe, if_neg h, hlt])
        · exact absurd heq h
        · exact Or.inr (by simp [lexLe, if_neg (Ne.symm h), hgt])

theorem lexLe_trans (a b c : List Char) (hab : lexLe a b = true)
    (hbc : lexLe b c = true) : lexLe a c = true := by
  induction a generalizing b c with
  | nil => rfl
  | cons x xs ih =>
    cases b with
    | nil => simp [lexLe] at hab
    | cons y ys =>
      cases c with
      | nil => simp [lexLe] at hbc
      | cons z zs =>
        by_cases hxy : x = y
        · subst hxy
          by_cases hyz : x = z
          · subst hyz
            simp only [lexLe, if_pos rfl] at hab hbc ⊢
            exact ih ys zs hab hbc
          · simp only [lexLe, if_pos rfl] at hab
            simpa [lexLe, if_neg hyz] using hbc
        · by_cases hyz : y = z
          · subst hyz
            simpa [lexLe, if_neg hxy] using hab
          · simp only [lexLe, if_neg hxy] at hab
            simp only [lexLe, if_neg hyz] at hbc
            have hlt : x < z := lt_trans (of_decide_eq_true hab)
              (of_decide_eq_true hbc)
            simp [lexLe, if_neg (ne_of_lt hlt), hlt]

theorem lexLe_antisymm (a b : List Char) (hab : lexLe a b = true)
    (hba : lexLe b a = true) : a = b := by
  induction a generalizing b with
  | nil =>
    cases b with
    | nil => rfl
    | cons y ys => simp [lexLe] at hba
  | cons x xs ih =>
    cases b with
    | nil => simp [lexLe] at hab
    | cons y ys =>
      by_cases hxy : x = y
      · subst hxy
        simp only [lexLe, if_pos rfl] at hab hba
        rw [ih ys hab hba]
      · simp only [lexLe, if_neg hxy] at hab
        simp only [lexLe, if_neg (Ne.symm hxy)] at hba
        exact absurd (of_decide_eq_true hba)
          (lt_asymm (of_decide_eq_true hab))

theorem keyLe_total {α : Type} (score : α → Int) (text : α → List Char)
    (a b : α) : keyLe score text a b = true ∨ keyLe score text b a = true := by
  unfold keyLe
  by_cases h : score a = score b
  · simp only [if_pos h, if_pos h.symm]
    exact lexLe_total _ _
  · simp only [if_neg h, if_neg (Ne.symm h)]
    rcases lt_trichotomy (score a) (score b) with hlt | heq | hgt
    · exact Or.inr (by simpa using hlt)
    · exact absurd heq h
    · exact Or.inl (by simpa using hgt)

theorem keyLe_trans {α : Type} (score : α → Int) (text : α → List Char)
    (a b c : α) (hab : keyLe score text a b = true)
    (hbc : keyLe score text b c = true) : keyLe score text a c = true := by
  unfold keyLe at *
  by_cases h1 : score a = score b <;> by_cases h2 : score b = score c
  · rw [if_pos h1] at hab
    rw [if_pos h2] at hbc
    rw [if_pos (h1.trans h2)]
    exact lexLe_trans _ _ _ hab hbc
  · rw [if_neg h2] at hbc
    have : score c < score b := of_decide_eq_true hbc
    rw [if_neg (by omega : score a ≠ score c)]
    simp only [decide_eq_true_eq]
    omega
  · rw [if_neg h1] at hab
    have : score b < score a := of_decide_eq_true hab
    rw [if_neg (by omega : score a ≠ score c)]
    simp only [decide_eq_true_eq]
    omega
  · rw [if_neg h1] at hab
    rw [if_neg h2] at hbc
    have hb : score b < score a := of_decide_eq_true hab
    have hc : score c < score b := of_decide_eq_true hbc
    rw [if_neg (by omega : score a ≠ score c)]
    simp only [decide_eq_true_eq]
    omega

theorem keyLe_key_eq {α : Type} (score : α → Int) (text : α → List Char)
    (a b : α) (hab : keyLe score text a b = true)
    (hba : keyLe score text b a = true) :
    score a = score b ∧ text a = text b := by
  unfold keyLe at hab hba
  by_cases h : score a = score b
  · rw [if_pos h] at hab
    rw [if_pos h.symm] at hba
    exact ⟨h, lexLe_antisymm _ _ hab hba⟩
  · rw [if_neg h] at hab
    rw [if_neg (Ne.symm h)] at hba
    have h1 : score b < score a := of_decide_eq_true hab
    have h2 : score a < score b := of_decide_eq_true hba
    omega

theorem insertionSort_keyLe_pairwise {α : Type} (score : α → Int)
    (text : α → List Char) (l : List α) :
    List.Pairwise (fun a b => keyLe score text a b = true)
      (l.insertionSort (fun a b => keyLe score text a b = true)) := by
  haveI : IsTotal α (fun a b => keyLe score text a b = true) :=
    ⟨keyLe_total score text⟩
  haveI : IsTrans α (fun a b => keyLe score text a b = true) :=
    ⟨keyLe_trans score text⟩
  exact List.sorted_insertionSort _ l

theorem insertionSort_keyLe_eq_of_perm {α : Type} [DecidableEq α]
    (score : α → Int) (text : α → List Char) (l1 l2 : List α)
    (hp : l1.Perm l2)
    (hd : (l1.map (fun a => (score a, text a))).Nodup) :
    l1.insertionSort (fun a b => keyLe score text a b = true) =
      l2.insertionSort (fun a b => keyLe score text a b = true) := by
  set key : α → Int × List Char := fun a => (score a, text a) with hkey
  set rs : α → α → Prop :=
    fun a b => keyLe score text a b = true ∧ key a ≠ key b with hrs
  haveI : IsAntisymm α rs := by
    refine ⟨fun a b h1 h2 => absurd ?_ h1.2⟩
    obtain ⟨hsc, htx⟩ := keyLe_key_eq score text a b h1.1 h2.1
    simp [hkey, hsc, htx]
  have hs1p := insertionSort_keyLe_pairwise score text l1
  have hs2p := insertionSort_keyLe_pairwise score text l2
  have hperm1 : (l1.insertionSort (fun a b => keyLe score text a b = true)).Perm
      l1 := List.perm_insertionSort _ _
  have hperm2 : (l2.insertionSort (fun a b => keyLe score text a b = true)).Perm
      l2 := List.perm_insertionSort _ _
  have hd1 : ((l1.insertionSort
      (fun a b => keyLe score text a b = true)).map key).Nodup :=
    (hperm1.map key).symm.nodup hd
  have hd2 : ((l2.insertionSort
      (fun a b => keyLe score text a b = true)).map key).Nodup := by
    have hdl2 : (l2.map key).Nodup := ((hp.map key).nodup hd)
    exact (hperm2.map key).symm.nodup hdl2
  have hne1 : List.Pairwise (fun a b => key a ≠ key b)
      (l1.insertionSort (fun a b => keyLe score text a b = true)) :=
    List.pairwise_map.mp hd1
  have hne2 : List.Pairwise (fun a b => key a ≠ key b)
      (l2.insertionSort (fun a b => keyLe score text a b = true)) :=
    List.pairwise_map.mp hd2
  have hs1 : List.Sorted rs
      (l1.insertionSort (fun a b => keyLe score text a b = true)) :=
    hs1p.and hne1
  have hs2 : List.Sorted rs
      (l2.insertionSort (fun a b => keyLe score text a b = true)) :=
    hs2p.and hne2
  exact List.eq_of_perm_of_sorted
    (hperm1.trans (hp.trans hperm2.symm)) hs1 hs2

/-- The result the host primitive `prepareFuzzySearch(query)` returns for one
candidate text: a score and the matched character ranges (an external
collaborator; the engine only reads these two fields).  Scores are in
tenths. -/
structure HostMatch where
  score : Int
  matchRanges : List (Nat × Nat)
deriving DecidableEq, Repr

/-- Source: `QuickSwitchItem['item']` (src/src/ui/QuickSwitchModal.ts): a real
file or the synthetic "create new note" placeholder carrying the literal query
text. -/
inductive QItem where
  | file (f : FileInfo)
  | newNote (newName : String)
deriving DecidableEq, Repr

/-- One entry of the quick switcher's result list: item, score and highlight
ranges (`FuzzyMatch<QuickSwitchItem['item']>` in the source). -/
structure QResult where
  item : QItem
  score : Int
  matchRanges : List (Nat × Nat)
deriving DecidableEq, Repr

/-- Source: the `SearchMatchReason` record (src/src/ui/QuickSwitchModal.ts
lines 238-242): which of the three fields caused the match, for icon
selection only. -/
structure SearchMatchReason where
  matchedInTitle : Bool
  matchedInFilename : Bool
  matchedInAlias : Bool
deriving DecidableEq, Repr

/-- Source: `getDisplayName(file)` (src/src/ui/QuickSwitchModal.ts lines
153-164): the trimmed property value when present, non-null and non-empty
after trimming, else the basename.  `meta` is the metadata accessor
(`app.metadataCache.getFileCache`). -/
def getDisplayName (propertyKey : String)
    (meta : String → Option Frontmatter) (f : FileInfo) : String :=
  match (meta f.path).bind (fun m => fmGet m propertyKey) with
  | some v =>
    if v ≠ FmValue.scalar FmScalar.null then
      let t := trimString (fmToString v)
      if t ≠ "" then t else f.basename
    else f.basename
  | none => f.basename

/-- Source: `getItemText(item)` (src/src/ui/QuickSwitchModal.ts lines
139-151): the proposed name for the new-note placeholder, the basename when
the switcher integration is disabled, else the display name. -/
def getItemText (st : PluginSettings) (meta : String → Option Frontmatter) :
    QItem → String
  | .newNote n => n
  | .file f =>
    if !st.enableForQuickSwitcher then f.basename
    else getDisplayName st.propertyKey meta f

/-- Source: one iteration of the `performSearch` scan
(src/src/ui/QuickSwitchModal.ts lines 232-270): run the host fuzzy search on
the item text, check the filename and alias policies, record the match
reason, and keep the record when the host matched or an alias matched (an
alias-only match gets the placeholder score -0.1, here -1 tenth, and a
whole-query highlight range).  Returns the result paired with the
`matchReasons` entry for the file's path, or `none` when the record is
dropped. -/
def processRecordB (host : String → Option HostMatch) (st : PluginSettings)
    (meta : String → Option Frontmatter) (query : String)
    (cd : CachedFileData) : Option (QResult × (String × SearchMatchReason)) :=
  let text := getItemText st meta (QItem.file cd.file)
  let m := (host text).getD ⟨0, []⟩
  let aliasMatch := st.includeAliasesInSearch
    && decide (0 < cd.aliases.length)
    && cd.aliases.any (fun a => fuzzyMatch a query)
  let reason : SearchMatchReason :=
    ⟨!(m.matchRanges == []),
     st.includeFilenameInSearch && !(cd.file.basename == cd.displayName)
       && fuzzyMatch cd.file.basename query,
     aliasMatch⟩
  if !(m.matchRanges == []) || aliasMatch then
    some (⟨QItem.file cd.file,
           if !(m.matchRanges == []) then m.score else -1,
           if !(m.matchRanges == []) then m.matchRanges
           else [(0, query.data.length)]⟩,
          (cd.file.path, reason))
  else none

/-- The results collected by the `performSearch` scan, in cache order, before
sorting (src/src/ui/QuickSwitchModal.ts lines 228-270). -/
def collectB (host : String → Option HostMatch) (st : PluginSettings)
    (meta : String → Option Frontmatter) (cache : List CachedFileData)
    (query : String) : List QResult :=
  (cache.filterMap (processRecordB host st meta query)).map Prod.fst

/-- The text the Mode B comparator reads for an item, as a character list. -/
def qText (st : PluginSettings) (meta : String → Option Frontmatter)
    (r : QResult) : List Char :=
  (getItemText st meta r.item).data

/-- Source: the switcher's configured result limit (`this.limit = 10` in the
constructor, src/src/ui/QuickSwitchModal.ts line 15). -/
def switcherLimit : Nat := 10

/-- Source: `performSearch(searchQuery)` of the quick switcher, Mode B
(src/src/ui/QuickSwitchModal.ts lines 226-305): scan the cache, sort by score
descending with the lexicographic text tie-break, append the single synthetic
"create new note" entry (score 1000, a whole-query range) only when no result
at all was found, and truncate to the limit.  The `results.some(...)`
exact-match scan of lines 281-288 computes a boolean that is discarded and is
omitted from the model. -/
def performSearchB (host : String → Option HostMatch) (st : PluginSettings)
    (meta : String → Option Frontmatter) (cache : List CachedFileData)
    (limit : Nat) (query : String) : List QResult :=
  let results := collectB host st meta cache query
  let sorted := results.insertionSort
    (fun a b => keyLe (fun r => r.score) (qText st meta) a b = true)
  let final :=
    if sorted.isEmpty then
      [⟨QItem.newNote query, 10000, [(0, query.data.length)]⟩]
    else sorted
  final.take limit

theorem processRecordB_item (host : String → Option HostMatch)
    (st : PluginSettings) (meta : String → Option Frontmatter) (query : String)
    (cd : CachedFileData) (pr : QResult × (String × SearchMatchReason))
    (h : processRecordB host st meta query cd = some pr) :
    pr.1.item = QItem.file cd.file := by
  simp only [processRecordB] at h
  split_ifs at h <;>
    first
      | (injection h with h2; rw [← h2])
      | exact absurd h (by simp)

/-- Claim C8: in Mode B with a non-empty query, the synthetic "create new
note" entry carrying the literal query is appended iff the real result set is
empty, and is then the only entry; it never appears among real candidates;
and the returned list never exceeds the configured limit. -/
theorem C8_create_new_note (host : String → Option HostMatch)
    (st : PluginSettings) (meta : String → Option Frontmatter)
    (cache : List CachedFileData) (query : String) (hq : query ≠ "") :
    (collectB host st meta cache query = [] →
      performSearchB host st meta cache switcherLimit query =
        [⟨QItem.newNote query, 10000, [(0, query.data.length)]⟩])
    ∧ (collectB host st meta cache query ≠ [] →
      ∀ r ∈ performSearchB host st meta cache switcherLimit query,
        ∀ n, r.item ≠ QItem.newNote n)
    ∧ (∀ limit,
        (performSearchB host st meta cache limit query).length ≤ limit) := by
  refine ⟨?_, ?_, ?_⟩
  · intro hempty
    simp [performSearchB, hempty, List.insertionSort, switcherLimit]
  · intro hne r hr n
    have hperm : (collectB host st meta cache query).insertionSort
        (fun a b => keyLe (fun x => x.score) (qText st meta) a b = true) |>.Perm
        (collectB host st meta cache query) := List.perm_insertionSort _ _
    have hsne : (collectB host st meta cache query).insertionSort
        (fun a b => keyLe (fun x => x.score) (qText st meta) a b = true) ≠ [] := by
      intro h
      have h2 := hperm.symm
      rw [h] at h2
      exact hne h2.eq_nil
    have hie : ((collectB host st meta cache query).insertionSort
        (fun a b => keyLe (fun x => x.score) (qText st meta) a b = true)).isEmpty
        = false := by
      cases h : (collectB host st meta cache query).insertionSort
          (fun a b => keyLe (fun x => x.score) (qText st meta) a b = true) with
      | nil => exact absurd h hsne
      | cons x t => rfl
    simp only [performSearchB, hie, Bool.false_eq_true, if_false] at hr
    have hr2 : r ∈ (collectB host st meta cache query).insertionSort
        (fun a b => keyLe (fun x => x.score) (qText st meta) a b = true) :=
      List.mem_of_mem_take hr
    have hr3 : r ∈ collectB host st meta cache query := hperm.mem_iff.mp hr2
    simp only [collectB, List.mem_map] at hr3
    obtain ⟨pr, hpr, hfst⟩ := hr3
    obtain ⟨cd, hcd, hsome⟩ := List.mem_filterMap.mp hpr
    have := processRecordB_item host st meta query cd pr hsome
    rw [← hfst, this]
    simp
  · intro limit
    simp only [performSearchB]
    rw [List.length_take]
    exact min_le_left _ _

/-- Witness for C8: an empty cache with the query `"new note"` yields exactly
the synthetic create-entry. -/
theorem C8_create_new_note_witness :
    performSearchB (fun _ => none) stPlain (fun _ => none) [] switcherLimit
        "new note" =
      [⟨QItem.newNote "new note", 10000, [(0, "new note".data.length)]⟩] :=
  (C8_create_new_note (fun _ => none) stPlain (fun _ => none) [] "new note"
    (by decide)).1 rfl

/-- The mutable fields of the quick-switch modal that `performSearch` can
read or write: the display cache and the per-query match reasons. -/
structure ModalState where
  fileCache : List (String × CachedFileData)
  matchReasons : List (String × SearchMatchReason)
deriving DecidableEq, Repr

/-- Source: `performSearch` as a state transformer on the modal's fields
(src/src/ui/QuickSwitchModal.ts lines 226-305): the method iterates
`this.fileCache.values()`, clears `this.matchReasons` and sets one entry per
included record; it contains no assignment to `this.fileCache` or to any
record's fields. -/
def performSearchBFull (host : String → Option HostMatch)
    (st : PluginSettings) (meta : String → Option Frontmatter)
    (s : ModalState) (limit : Nat) (query : String) :
    ModalState × List QResult :=
  let pairs := (s.fileCache.map Prod.snd).filterMap
    (processRecordB host st meta query)
  (⟨s.fileCache, pairs.map Prod.snd⟩,
   performSearchB host st meta (s.fileCache.map Prod.snd) limit query)

/-- Source: Mode A `performSearch` as a state transformer
(src/src/ui/LinkTitleSuggest.ts lines 105-139): the method reads
`this.fileCache.values()` and writes no field of the class at all (its
`suggestions` and `existingFiles` are locals). -/
def performSearchAFull (st : PluginSettings)
    (s : List (String × CachedFileData)) (query : String) :
    List (String × CachedFileData) × List SuggestionItem :=
  (s, performSearchA st (s.map Prod.snd) query)

/-- Claim C10: executing a search in either mode never mutates the display
index: Mode A leaves the whole cache state untouched, and Mode B leaves
`fileCache` (the set of cached paths and every record's fields) identical,
rewriting only the ephemeral per-query `matchReasons`. -/
theorem C10_search_preserves_cache (host : String → Option HostMatch)
    (st : PluginSettings) (meta : String → Option Frontmatter)
    (ms : ModalState) (limit : Nat) (q : String)
    (ca : List (String × CachedFileData)) (qa : String) :
    (performSearchAFull st ca qa).1 = ca
    ∧ (performSearchBFull host st meta ms limit q).1.fileCache = ms.fileCache
    ∧ (performSearchBFull host st meta ms limit q).1.matchReasons =
        ((ms.fileCache.map Prod.snd).filterMap
          (processRecordB host st meta q)).map Prod.snd :=
  ⟨rfl, rfl, rfl⟩

/-- Two cached records sharing the display text `"t"` and the basename `"n"`
but with different paths; they tie on score and display. -/
def recP1 : CachedFileData := ⟨⟨"p1.md", "n", 0⟩, "t", [], 0, false⟩

/-- The twin of `recP1` at a different path. -/
def recP2 : CachedFileData := ⟨⟨"p2.md", "n", 0⟩, "t", [], 0, false⟩

/-- Counterexample to claim C9: two records with identical display text,
identical basename and hence identical score come back in whichever order
they sit in the index (the sort is stable), so permuting the index contents
changes the output order. -/
theorem C9_tie_break_counterexample :
    recP1.displayName = recP2.displayName
    ∧ modeAScore stPlain "" ⟨some recP1.file, recP1.displayName, false, false⟩ =
        modeAScore stPlain "" ⟨some recP2.file, recP2.displayName, false, false⟩
    ∧ [recP1, recP2].Perm [recP2, recP1]
    ∧ performSearchA stPlain [recP1, recP2] "" ≠
        performSearchA stPlain [recP2, recP1] "" :=
  ⟨rfl, rfl, by decide, by decide⟩

/-- Claim C9 (amended): in both modes any two returned candidates with
identical scores appear in ascending (non-strict) lexicographic order of
their display text; and the output is independent of index insertion order
provided no two collected candidates share both score and display text
(with duplicated score-and-text pairs, the stable sort keeps index order). -/
theorem C9_tie_break_amended :
    (∀ st cache q,
      List.Pairwise
        (fun a b => modeAScore st q a = modeAScore st q b →
          lexLe a.display.data b.display.data = true)
        (performSearchA st cache q))
    ∧ (∀ host st meta cache limit q,
      List.Pairwise
        (fun a b => a.score = b.score →
          lexLe (qText st meta a) (qText st meta b) = true)
        (performSearchB host st meta cache limit q))
    ∧ (∀ st cache1 cache2 q, cache1.Perm cache2 →
      ((collectA st cache1 q).map
        (fun s => (modeAScore st q s, s.display.data))).Nodup →
      performSearchA st cache1 q = performSearchA st cache2 q)
    ∧ (∀ host st meta cache1 cache2 limit q, cache1.Perm cache2 →
      ((collectB host st meta cache1 q).map
        (fun r => (r.score, qText st meta r))).Nodup →
      performSearchB host st meta cache1 limit q =
        performSearchB host st meta cache2 limit q) := by
  refine ⟨?_, ?_, ?_, ?_⟩
  · intro st cache q
    have hp : List.Pairwise
        (fun a b => keyLe (modeAScore st q) (fun s => s.display.data) a b = true)
        (performSearchA st cache q) :=
      insertionSort_keyLe_pairwise (modeAScore st q)
        (fun s => s.display.data) _
    refine hp.imp ?_
    intro a b h heq
    unfold keyLe at h
    rwa [if_pos heq] at h
  · intro host st meta cache limit q
    have hp : List.Pairwise
        (fun a b => keyLe (fun r => r.score) (qText st meta) a b = true)
        ((collectB host st meta cache q).insertionSort
          (fun a b => keyLe (fun r => r.score) (qText st meta) a b = true)) :=
      insertionSort_keyLe_pairwise (fun r => r.score) (qText st meta) _
    have hfin : List.Pairwise
        (fun a b => keyLe (fun r => r.score) (qText st meta) a b = true)
        (performSearchB host st meta cache limit q) := by
      simp only [performSearchB]
      split_ifs with hie
      · exact List.Pairwise.sublist (List.take_sublist _ _)
          (List.pairwise_singleton _ _)
      · exact List.Pairwise.sublist (List.take_sublist _ _) hp
    refine hfin.imp ?_
    intro a b h heq
    unfold keyLe at h
    rwa [if_pos heq] at h
  · intro st cache1 cache2 q hperm hd
    have hcp : (collectA st cache1 q).Perm (collectA st cache2 q) :=
      (hperm.filter (recordMatches st q)).map _
    by_cases he : collectA st cache1 q = []
    · have he2 : collectA st cache2 q = [] := by
        have h2 := hcp
        rw [he] at h2
        exact h2.symm.eq_nil
      simp [performSearchA, he, he2]
    · have he2 : collectA st cache2 q ≠ [] := by
        intro h
        apply he
        have h2 := hcp
        rw [h] at h2
        exact h2.eq_nil
      have hie1 : (collectA st cache1 q).isEmpty = false := by
        cases h : collectA st cache1 q with
        | nil => exact absurd h he
        | cons a t => rfl
      have hie2 : (collectA st cache2 q).isEmpty = false := by
        cases h : collectA st cache2 q with
        | nil => exact absurd h he2
        | cons a t => rfl
      simp only [performSearchA, hie1, hie2, Bool.false_and,
        Bool.false_eq_true, if_false]
      show List.insertionSort _ _ = List.insertionSort _ _
      exact insertionSort_keyLe_eq_of_perm (modeAScore st q)
        (fun s => s.display.data) _ _ hcp hd
  · intro host st meta cache1 cache2 limit q hperm hd
    have hcp : (collectB host st meta cache1 q).Perm
        (collectB host st meta cache2 q) :=
      (hperm.filterMap (processRecordB host st meta q)).map _
    have hsort : (collectB host st meta cache1 q).insertionSort
        (fun a b => keyLe (fun r => r.score) (qText st meta) a b = true) =
        (collectB host st meta cache2 q).insertionSort
          (fun a b => keyLe (fun r => r.score) (qText st meta) a b = true) :=
      insertionSort_keyLe_eq_of_perm (fun r => r.score) (qText st meta)
        _ _ hcp hd
    simp only [performSearchB, hsort]

/-- Witness for the amended C9: with two records of distinct display texts
(hence distinct score-text keys), permuting the index leaves the Mode A
output unchanged. -/
theorem C9_tie_break_amended_witness :
    performSearchA stPlain [recNote, recP1] "" =
      performSearchA stPlain [recP1, recNote] "" :=
  C9_tie_break_amended.2.2.1 stPlain [recNote, recP1] [recP1, recNote] ""
    (by decide) (by decide)

/-- Source: the `SuggestionItem` shape of the older all-in-one implementation
(src/unnamed/part_006): its sentinel flag is `isNewNote` (that variant
prepends a create-new-note entry instead of a no-match sentinel). -/
structure SuggestionItem006 where
  file : Option FileInfo
  display : String
  isCustomDisplay : Bool
  isNewNote : Bool
deriving DecidableEq, Repr

/-- The basename fed to the scorer: `a.file?.basename ?? ''`. -/
def basenameOf006 (s : SuggestionItem006) : String :=
  match s.file with
  | some f => f.basename
  | none => ""

/-- Source: the comparator of `sortSuggestions` in part_006 (lines 199-207):
it computes both scores (through `getMatchScore`, whose regex construction
can throw — handled by `sortSuggestions006` below), then puts a new-note item
first, then orders by score descending with the lexicographic tie-break. -/
def le006 (flag : Bool) (test : List Char → Bool) (query : String)
    (a b : SuggestionItem006) : Bool :=
  if a.isNewNote then true
  else if b.isNewNote then false
  else keyLe
    (fun s => rawScore006 flag test s.display query (basenameOf006 s))
    (fun s => s.display.data) a b

/-- Source: `sortSuggestions(suggestions, query)` of part_006 (lines 199-207).
`Array.prototype.sort` invokes the comparator at least once on every array of
two or more elements, and the first statements of this comparator construct
the word-boundary regex from the query, so an invalid pattern throws out of
the sort; on an array of at most one element the comparator never runs and
nothing can throw. -/
def sortSuggestions006 (flag : Bool) (query : String)
    (sugs : List SuggestionItem006) : Except Unit (List SuggestionItem006) :=
  if sugs.length ≤ 1 then Except.ok sugs
  else
    match compileWordBoundaryPattern (lowerChars query) with
    | none => Except.error ()
    | some test =>
      Except.ok (sugs.insertionSort (fun a b => le006 flag test query a b = true))

/-- Source: `performSearch(query)` of part_006 (lines 154-187): the same
per-record matching as Mode A, then a create-new-note item is prepended when
the query is non-empty and no matched file's lower-cased basename equals the
lower-cased query, and the list is sorted. -/
def performSearch006 (st : PluginSettings) (cache : List CachedFileData)
    (query : String) : Except Unit (List SuggestionItem006) :=
  let matched := cache.filter (recordMatches st query)
  let sugs : List SuggestionItem006 := matched.map
    (fun cd => ⟨some cd.file, cd.displayName, cd.isCustomDisplay, false⟩)
  let existing := matched.map (fun cd => lowerString cd.file.basename)
  let sugs2 :=
    if !(query == "") && !(existing.contains (lowerString query)) then
      (⟨none, query, false, true⟩ : SuggestionItem006) :: sugs
    else sugs
  sortSuggestions006 st.includeFilenameInSearch query sugs2

/-- Source: `getSuggestions(context)` of part_006 (lines 149-152): trims the
live query and delegates to `performSearch`; the public Mode A entry point of
that variant. -/
def getSuggestions006 (st : PluginSettings) (cache : List CachedFileData)
    (rawQuery : String) : Except Unit (List SuggestionItem006) :=
  performSearch006 st cache (trimString rawQuery)

/-- A cached record whose display name contains a parenthesis. -/
def recParenA : CachedFileData := ⟨⟨"x.md", "x", 0⟩, "a(", [], 0, false⟩

/-- A second cached record whose display name contains a parenthesis. -/
def recParenB : CachedFileData := ⟨⟨"y.md", "y", 0⟩, "b(", [], 0, false⟩

/-- Counterexample to claim C6: the Mode A public entry point `getSuggestions`
propagates an exception for the query `"("` (a regular-expression
metacharacter) over a cache of two matching records: scoring constructs
`new RegExp("\\b" + query)`, the pattern does not compile, and nothing
catches the throw. -/
theorem C6_search_throws_counterexample :
    getSuggestions006 stPlain [recParenA, recParenB] "(" = Except.error ()
    ∧ compileWordBoundaryPattern (lowerChars "(") = none := by
  constructor
  · rfl
  · rfl

/-- Claim C6 (amended): Mode B `performSearch` is exception-free by
construction for every host search function, query and cache (only its
sort/truncate phase is even wrapped in the catch that would return `[]`);
Mode A `getSuggestions` never throws for a query free of regex
metacharacters, and never throws when at most one suggestion is collected,
but a metacharacter query with two or more suggestions propagates the regex
`SyntaxError` (see the counterexample). -/
theorem C6_search_failure_amended (st : PluginSettings)
    (cache : List CachedFileData) (query : String) :
    ((lowerChars query).all (fun c => !(regexMetaChars.contains c)) = true →
      (performSearch006 st cache query).isOk = true)
    ∧ (∀ sugs, sugs.length ≤ 1 →
      (sortSuggestions006 st.includeFilenameInSearch query sugs).isOk = true) := by
  constructor
  · intro hlit
    have hc : compileWordBoundaryPattern (lowerChars query) =
        some (fun s => wbTest s (lowerChars query)) := by
      unfold compileWordBoundaryPattern
      rw [if_pos hlit]
    simp only [performSearch006, sortSuggestions006, hc]
    split_ifs <;> rfl
  · intro sugs hlen
    simp only [sortSuggestions006, if_pos hlen]
    rfl

/-- Witness for the amended C6: a metacharacter-free query succeeds over the
two-record cache, and a singleton-or-empty suggestion list survives even the
invalid query `"("`. -/
theorem C6_search_failure_amended_witness :
    (performSearch006 stPlain [recParenA, recParenB] "ab").isOk = true
    ∧ (sortSuggestions006 stPlain.includeFilenameInSearch "(" []).isOk = true :=
  ⟨(C6_search_failure_amended stPlain [recParenA, recParenB] "ab").1 (by decide),
   (C6_search_failure_amended stPlain [] "(").2 [] (by decide)⟩
